import Mathlib

/-!
Verification of `pygame_gui/elements/ui_image.py` (class `UIImage`).

Shallow embedding notes:
* A pygame surface is modelled by `Surface`: either a concrete RGBA pixel
  bitmap (`ofBitmap`) or the result of `pygame.transform.smoothscale`
  applied to a source surface (`scaled`), which records its target size.
  Keeping `smoothscale` symbolic lets us state exactly which surface a
  rescale took as its source.
* `Bitmap.convert_alpha` models pygame's `Surface.convert_alpha()`: a
  pixel-format conversion to the canonical 32-bit per-pixel-alpha format
  that preserves dimensions and 8-bit RGBA pixel values, hence identity
  in this model.
* Pixels are quadruples of natural numbers; machine bytes are naturals
  with an explicit `≤ 255` well-formedness predicate.
* Code of this repository that is outside the provided source file
  (`premul_alpha_surface` from `pygame_gui.core.utility`, and the base
  class `UIElement` behaviour invoked via `super().set_dimensions`,
  `self._set_image` and `__init__`) is modelled from the spec; each such
  definition carries a doc comment saying so.
-/

/-- An RGBA pixel; channel values are naturals (bytes are `≤ 255`). -/
structure Pixel where
  r : Nat
  g : Nat
  b : Nat
  a : Nat
deriving DecidableEq, Repr

/-- A concrete RGBA pixel bitmap with declared dimensions, as supplied by a
caller to `set_image` or at construction. -/
structure Bitmap where
  w : Nat
  h : Nat
  data : List (List Pixel)
deriving DecidableEq, Repr

/-- A pygame surface as this widget sees it: either a concrete bitmap, or
the result of `pygame.transform.smoothscale` on a source surface at a
recorded target size. -/
inductive Surface where
  | ofBitmap (b : Bitmap)
  | scaled (src : Surface) (w : Nat) (h : Nat)
deriving DecidableEq, Repr

/-- `Surface.get_width()` of pygame. -/
def Surface.get_width : Surface → Nat
  | .ofBitmap b => b.w
  | .scaled _ w _ => w

/-- `Surface.get_height()` of pygame. -/
def Surface.get_height : Surface → Nat
  | .ofBitmap b => b.h
  | .scaled _ _ h => h

/-- `Surface.get_size()` of pygame. -/
def Surface.get_size (s : Surface) : Nat × Nat :=
  (s.get_width, s.get_height)

/-- `pygame.transform.smoothscale(surface, size)`: the external library's
quality-preserving resample, modelled symbolically; pygame guarantees the
result has exactly the requested size. -/
def smoothscale (s : Surface) (size : Nat × Nat) : Surface :=
  .scaled s size.1 size.2

/-- `Surface.convert_alpha()` of pygame: conversion to the canonical
per-pixel-alpha format, preserving dimensions and 8-bit RGBA values;
identity in this model. -/
def Bitmap.convert_alpha (b : Bitmap) : Bitmap := b

/-- Premultiply one pixel: each colour channel is scaled by the alpha
fraction (integer arithmetic, as on 8-bit channel data). -/
def premulPixel (p : Pixel) : Pixel :=
  ⟨p.r * p.a / 255, p.g * p.a / 255, p.b * p.a / 255, p.a⟩

/-- Modelled from the spec: `premul_alpha_surface` lives in
`pygame_gui.core.utility`, which is not part of the provided source.  The
spec states that for a pixel `(R,G,B,A)` the stored pixel equals
`(R·A/255, G·A/255, B·A/255, A)`; this applies that transform to every
pixel of the bitmap, preserving its dimensions. -/
def premul_alpha_surface (b : Bitmap) : Bitmap :=
  ⟨b.w, b.h, b.data.map (fun row => row.map premulPixel)⟩

/-- The widget rectangle (`pygame.Rect`): position plus size.  Only the
size is read or written by the code under verification. -/
structure Rect where
  left : Int
  top : Int
  width : Nat
  height : Nat
deriving DecidableEq, Repr

/-- `Rect.size` of pygame. -/
def Rect.size (r : Rect) : Nat × Nat := (r.width, r.height)

/-- The state of a `UIImage` element: the widget rectangle, the displayed
surface `self.image`, the lazily captured `self.original_image`, and the
base widget's `self._pre_clipped_image` slot (an external input this
element reads but never writes). -/
structure UIImage where
  rect : Rect
  image : Surface
  original_image : Option Surface
  pre_clipped_image : Option Surface
deriving DecidableEq, Repr

namespace UIImage

/-- The conversion prefix of `UIImage.set_image` (source lines 88-90):
`image_surface = new_image.convert_alpha()`, then premultiplication when
`image_is_alpha_premultiplied` is false. -/
def convertedImage (new_image : Bitmap) (image_is_alpha_premultiplied : Bool) : Bitmap :=
  let image_surface := new_image.convert_alpha
  if image_is_alpha_premultiplied then image_surface
  else premul_alpha_surface image_surface

/-- `UIImage.set_image` on a non-null surface (the body after the
conversion prefix).  If the converted surface's width or height differs
from the widget rectangle, it is stored as `self.original_image` and the
displayed image becomes its smoothscale to `self.rect.size`; otherwise it
is displayed directly.  `self._set_image` (base widget, not in the
provided source) is modelled from the spec as storing the displayed
bitmap. -/
def setImageCore (st : UIImage) (new_image : Bitmap)
    (image_is_alpha_premultiplied : Bool) : UIImage :=
  let image_surface := convertedImage new_image image_is_alpha_premultiplied
  if image_surface.w ≠ st.rect.width ∨ image_surface.h ≠ st.rect.height then
    let st1 := { st with original_image := some (Surface.ofBitmap image_surface) }
    { st1 with image := smoothscale (Surface.ofBitmap image_surface) st1.rect.size }
  else
    { st with image := Surface.ofBitmap image_surface }

/-- The error raised by `new_image.convert_alpha()` when `new_image` is
`None` (Python `AttributeError`). -/
inductive PyError where
  | attributeError
deriving DecidableEq, Repr

/-- `UIImage.set_image(new_image, image_is_alpha_premultiplied)` with the
declared `Union[Surface, None]` argument: a `None` argument raises from
the very first statement (`new_image.convert_alpha()`), before any state
is touched. -/
def set_image (st : UIImage) (new_image : Option Bitmap)
    (image_is_alpha_premultiplied : Bool) : Except PyError UIImage :=
  match new_image with
  | none => .error .attributeError
  | some b => .ok (st.setImageCore b image_is_alpha_premultiplied)

/-- Python exception semantics for a caller of `set_image`: on an error
the mutation is abandoned and the caller still holds the old state. -/
def set_image_run (st : UIImage) (new_image : Option Bitmap)
    (image_is_alpha_premultiplied : Bool) : UIImage :=
  match st.set_image new_image image_is_alpha_premultiplied with
  | .ok st1 => st1
  | .error _ => st

/-- Modelled from the spec: `super().set_dimensions(dimensions)` (base
class `UIElement`, not in the provided source) delegates to the base
widget's generic resize handling, which updates the widget rectangle to
the new dimensions. -/
def baseSetDimensions (st : UIImage) (dimensions : Nat × Nat) : UIImage :=
  { st with rect := { st.rect with width := dimensions.1, height := dimensions.2 } }

/-- `UIImage.set_dimensions(dimensions)` (source lines 55-72): delegate to
the base widget, then, when the rectangle size no longer matches the
displayed surface, lazily capture `original_image` (preferring
`_pre_clipped_image` when recorded, else the displayed image) and rescale
it to the new rectangle size. -/
def set_dimensions (st : UIImage) (dimensions : Nat × Nat) : UIImage :=
  let st1 := st.baseSetDimensions dimensions
  if st1.rect.size ≠ st1.image.get_size then
    let orig : Surface :=
      match st1.original_image with
      | some o => o
      | none =>
        match st1.pre_clipped_image with
        | some pc => pc
        | none => st1.image
    { st1 with
      original_image := some orig
      image := smoothscale orig st1.rect.size }
  else
    st1

/-- `UIImage.__init__` (source lines 28-53): the base widget is set up
(with `self._pre_clipped_image` unset and `self.image` not yet assigned —
the placeholder bitmap below is overwritten unconditionally), then
`self.original_image = None`, then `self.set_image(image_surface,
image_is_alpha_premultiplied)` installs the initial bitmap. -/
def init (relative_rect : Rect) (image_surface : Bitmap)
    (image_is_alpha_premultiplied : Bool) : UIImage :=
  let st : UIImage :=
    { rect := relative_rect
      image := Surface.ofBitmap ⟨0, 0, []⟩
      original_image := none
      pre_clipped_image := none }
  st.setImageCore image_surface image_is_alpha_premultiplied

end UIImage

/-- One mutator call on a `UIImage`, for stating properties of arbitrary
call sequences. -/
inductive Op where
  | setImage (b : Bitmap) (image_is_alpha_premultiplied : Bool)
  | setDims (dimensions : Nat × Nat)
deriving DecidableEq, Repr

/-- Apply one mutator. -/
def applyOp (st : UIImage) : Op → UIImage
  | .setImage b f => st.setImageCore b f
  | .setDims d => st.set_dimensions d

/-- Apply a sequence of mutators in order. -/
def applyOps (st : UIImage) (ops : List Op) : UIImage :=
  ops.foldl applyOp st

/-! ## Pixel-format predicates -/

/-- A pixel is in premultiplied-alpha form when every colour channel is at
most its alpha value (the image of the premultiplication transform on
byte-valued channels). -/
def Pixel.premultiplied (p : Pixel) : Prop :=
  p.r ≤ p.a ∧ p.g ≤ p.a ∧ p.b ≤ p.a

instance (p : Pixel) : Decidable p.premultiplied :=
  inferInstanceAs (Decidable (_ ∧ _ ∧ _))

/-- A bitmap is premultiplied when all its pixels are. -/
def Bitmap.premultiplied (b : Bitmap) : Prop :=
  ∀ row ∈ b.data, ∀ p ∈ row, p.premultiplied

instance (b : Bitmap) : Decidable b.premultiplied :=
  inferInstanceAs (Decidable (∀ row ∈ b.data, ∀ p ∈ row, p.premultiplied))

/-- A surface is premultiplied when its underlying pixel data is; smooth
scaling (interpolation, a convex combination of premultiplied pixels)
preserves premultipliedness, so a scaled surface is premultiplied exactly
when its source is. -/
def Surface.premultiplied : Surface → Prop
  | .ofBitmap b => b.premultiplied
  | .scaled src _ _ => src.premultiplied

/-- Decide premultipliedness of a surface by structural recursion. -/
def Surface.premultipliedDec : (s : Surface) → Decidable s.premultiplied
  | .ofBitmap b => inferInstanceAs (Decidable b.premultiplied)
  | .scaled src _ _ => premultipliedDec src

instance (s : Surface) : Decidable s.premultiplied := s.premultipliedDec

/-- A valid (well-formed) bitmap has byte-valued channels. -/
def Bitmap.valid (b : Bitmap) : Prop :=
  ∀ row ∈ b.data, ∀ p ∈ row, p.r ≤ 255 ∧ p.g ≤ 255 ∧ p.b ≤ 255 ∧ p.a ≤ 255

instance (b : Bitmap) : Decidable b.valid :=
  inferInstanceAs
    (Decidable (∀ row ∈ b.data, ∀ p ∈ row, p.r ≤ 255 ∧ p.g ≤ 255 ∧ p.b ≤ 255 ∧ p.a ≤ 255))

/-- A mutator call is honest when any bitmap it supplies is a valid byte
bitmap whose premultiplication flag truthfully describes it: a bitmap
passed with `image_is_alpha_premultiplied = true` really is
premultiplied. -/
def Op.honest : Op → Prop
  | .setImage b f => b.valid ∧ (f = true → b.premultiplied)
  | .setDims _ => True

instance : (op : Op) → Decidable op.honest
  | .setImage _ _ => inferInstanceAs (Decidable (_ ∧ _))
  | .setDims _ => inferInstanceAs (Decidable True)

/-- The premultiplied-format invariant over the whole widget state: the
displayed surface, the captured original (if any) and the pre-clip slot
(if recorded) are all premultiplied. -/
def UIImage.premulInv (st : UIImage) : Prop :=
  st.image.premultiplied
    ∧ (∀ o ∈ st.original_image, Surface.premultiplied o)
    ∧ (∀ pc ∈ st.pre_clipped_image, Surface.premultiplied pc)

/-! ## Helper lemmas -/

theorem premul_alpha_surface_premultiplied (b : Bitmap) (hb : b.valid) :
    (premul_alpha_surface b).premultiplied := by
  intro row hrow p hp
  simp only [premul_alpha_surface, List.mem_map] at hrow
  obtain ⟨row0, hrow0, rfl⟩ := hrow
  simp only [List.mem_map] at hp
  obtain ⟨p0, hp0, rfl⟩ := hp
  obtain ⟨hr, hg, hb0, _⟩ := hb row0 hrow0 p0 hp0
  refine ⟨?_, ?_, ?_⟩ <;>
    · simp only [premulPixel]
      calc _ ≤ 255 * p0.a / 255 := Nat.div_le_div_right (Nat.mul_le_mul_right _ (by omega))
        _ = p0.a := Nat.mul_div_cancel_left _ (by norm_num)

theorem convertedImage_premultiplied (b : Bitmap) (f : Bool)
    (h : Op.honest (.setImage b f)) :
    (UIImage.convertedImage b f).premultiplied := by
  obtain ⟨hv, hpre⟩ := h
  cases f with
  | false =>
    simpa [UIImage.convertedImage, Bitmap.convert_alpha] using
      premul_alpha_surface_premultiplied b hv
  | true => simpa [UIImage.convertedImage, Bitmap.convert_alpha] using hpre rfl

theorem convertedImage_w (b : Bitmap) (f : Bool) :
    (UIImage.convertedImage b f).w = b.w := by
  cases f <;> simp [UIImage.convertedImage, Bitmap.convert_alpha, premul_alpha_surface]

theorem convertedImage_h (b : Bitmap) (f : Bool) :
    (UIImage.convertedImage b f).h = b.h := by
  cases f <;> simp [UIImage.convertedImage, Bitmap.convert_alpha, premul_alpha_surface]

/-- Every call to `set_image` (on a non-null bitmap) re-establishes the
size invariant: the displayed surface has exactly the rectangle's size. -/
theorem setImageCore_size (st : UIImage) (b : Bitmap) (f : Bool) :
    (st.setImageCore b f).image.get_size = (st.setImageCore b f).rect.size := by
  unfold UIImage.setImageCore
  by_cases hc : (UIImage.convertedImage b f).w ≠ st.rect.width ∨
      (UIImage.convertedImage b f).h ≠ st.rect.height
  · simp [hc, smoothscale, Surface.get_size, Surface.get_width, Surface.get_height, Rect.size]
  · push_neg at hc
    simp [hc, Surface.get_size, Surface.get_width, Surface.get_height, Rect.size, hc.1, hc.2]

/-- Every call to `set_dimensions` re-establishes the size invariant. -/
theorem set_dimensions_size (st : UIImage) (d : Nat × Nat) :
    (st.set_dimensions d).image.get_size = (st.set_dimensions d).rect.size := by
  unfold UIImage.set_dimensions
  dsimp only
  split
  · simp [smoothscale, Surface.get_size, Surface.get_width, Surface.get_height, Rect.size]
  · next h =>
    rw [not_ne_iff] at h
    exact h.symm

theorem applyOp_size (st : UIImage) (op : Op) :
    (applyOp st op).image.get_size = (applyOp st op).rect.size := by
  cases op with
  | setImage b f => exact setImageCore_size st b f
  | setDims d => exact set_dimensions_size st d

theorem applyOps_size (st : UIImage) (ops : List Op)
    (h : st.image.get_size = st.rect.size) :
    (applyOps st ops).image.get_size = (applyOps st ops).rect.size := by
  induction ops generalizing st with
  | nil => exact h
  | cons op rest ih => exact ih (applyOp st op) (applyOp_size st op)

/-- The rectangle after `set_dimensions`: position kept, size replaced. -/
theorem set_dimensions_rect (st : UIImage) (d : Nat × Nat) :
    (st.set_dimensions d).rect = { st.rect with width := d.1, height := d.2 } := by
  unfold UIImage.set_dimensions UIImage.baseSetDimensions
  dsimp only
  split <;> rfl

theorem set_dimensions_rect_size (st : UIImage) (d : Nat × Nat) :
    (st.set_dimensions d).rect.size = d := by
  rw [set_dimensions_rect]
  rfl

theorem set_dimensions_pre_clipped (st : UIImage) (d : Nat × Nat) :
    (st.set_dimensions d).pre_clipped_image = st.pre_clipped_image := by
  unfold UIImage.set_dimensions UIImage.baseSetDimensions
  dsimp only
  split <;> rfl

/-- When the new dimensions differ from the displayed surface's size, the
rescale branch runs: its source is the captured original when present,
else the pre-clip slot when recorded, else the displayed surface. -/
theorem set_dimensions_image_of_ne (st : UIImage) (d : Nat × Nat)
    (h : d ≠ st.image.get_size) :
    (st.set_dimensions d).image
      = smoothscale (st.original_image.getD (st.pre_clipped_image.getD st.image)) d := by
  unfold UIImage.set_dimensions UIImage.baseSetDimensions
  dsimp only [Rect.size]
  rw [if_pos (by exact h)]
  cases st.original_image <;> cases st.pre_clipped_image <;> rfl

theorem set_dimensions_original_of_ne (st : UIImage) (d : Nat × Nat)
    (h : d ≠ st.image.get_size) :
    (st.set_dimensions d).original_image
      = some (st.original_image.getD (st.pre_clipped_image.getD st.image)) := by
  unfold UIImage.set_dimensions UIImage.baseSetDimensions
  dsimp only [Rect.size]
  rw [if_pos (by exact h)]
  cases st.original_image <;> cases st.pre_clipped_image <;> rfl

/-- When the new dimensions already match the displayed surface's size,
only the base widget's rectangle update happens. -/
theorem set_dimensions_of_eq (st : UIImage) (d : Nat × Nat)
    (h : d = st.image.get_size) :
    st.set_dimensions d = st.baseSetDimensions d := by
  unfold UIImage.set_dimensions
  dsimp only
  rw [if_neg]
  intro hne
  exact hne (by simpa [UIImage.baseSetDimensions, Rect.size] using h)

/-- `set_image` (non-null branch) preserves the premultiplied-format
invariant when the supplied bitmap is honest. -/
theorem setImageCore_premulInv (st : UIImage) (b : Bitmap) (f : Bool)
    (hop : Op.honest (.setImage b f)) (hst : st.premulInv) :
    (st.setImageCore b f).premulInv := by
  have hconv := convertedImage_premultiplied b f hop
  unfold UIImage.setImageCore
  dsimp only
  split
  · exact ⟨by simpa [smoothscale, Surface.premultiplied] using hconv,
      by simpa [Surface.premultiplied] using hconv, hst.2.2⟩
  · exact ⟨by simpa [Surface.premultiplied] using hconv, hst.2.1, hst.2.2⟩

/-- `set_dimensions` preserves the premultiplied-format invariant. -/
theorem set_dimensions_premulInv (st : UIImage) (d : Nat × Nat)
    (hst : st.premulInv) : (st.set_dimensions d).premulInv := by
  obtain ⟨him, hor, hpc⟩ := hst
  unfold UIImage.set_dimensions UIImage.baseSetDimensions
  dsimp only
  split
  · have horig : (match st.original_image with
        | some o => o
        | none =>
          match st.pre_clipped_image with
          | some pc => pc
          | none => st.image).premultiplied := by
      cases ho : st.original_image with
      | some o => exact hor o (by simp [ho])
      | none =>
        cases hp : st.pre_clipped_image with
        | some pc => exact hpc pc (by simp [hp])
        | none => exact him
    refine ⟨by simpa [smoothscale, Surface.premultiplied] using horig, ?_, hpc⟩
    intro o ho
    simp only [Option.mem_def, Option.some.injEq] at ho
    exact ho ▸ horig
  · exact ⟨him, hor, hpc⟩

theorem applyOp_premulInv (st : UIImage) (op : Op)
    (hop : op.honest) (hst : st.premulInv) : (applyOp st op).premulInv := by
  cases op with
  | setImage b f => exact setImageCore_premulInv st b f hop hst
  | setDims d => exact set_dimensions_premulInv st d hst

theorem applyOps_premulInv (st : UIImage) (ops : List Op)
    (hops : ∀ op ∈ ops, op.honest) (hst : st.premulInv) :
    (applyOps st ops).premulInv := by
  induction ops generalizing st with
  | nil => exact hst
  | cons op rest ih =>
    exact ih (applyOp st op)
      (fun o ho => hops o (List.mem_cons_of_mem op ho))
      (applyOp_premulInv st op (hops op (List.mem_cons_self op rest)) hst)

/-- Construction establishes both invariants when the initial bitmap is
honest. -/
theorem init_premulInv (r : Rect) (b : Bitmap) (f : Bool)
    (hop : Op.honest (.setImage b f)) : (UIImage.init r b f).premulInv := by
  unfold UIImage.init
  exact setImageCore_premulInv _ b f hop
    ⟨by intro row hrow; simp at hrow, by simp, by simp⟩

theorem init_size (r : Rect) (b : Bitmap) (f : Bool) :
    (UIImage.init r b f).image.get_size = (UIImage.init r b f).rect.size :=
  setImageCore_size _ b f

/-- `set_dimensions` never clears or replaces an already captured
original. -/
theorem set_dimensions_original_some (st : UIImage) (o : Surface) (d : Nat × Nat)
    (ho : st.original_image = some o) :
    (st.set_dimensions d).original_image = some o := by
  by_cases h : d = st.image.get_size
  · rw [set_dimensions_of_eq st d h]
    exact ho
  · rw [set_dimensions_original_of_ne st d h, ho]
    rfl

theorem applyOp_original_ne_none (st : UIImage) (op : Op)
    (h : st.original_image ≠ none) : (applyOp st op).original_image ≠ none := by
  cases op with
  | setImage b f =>
    unfold applyOp UIImage.setImageCore
    dsimp only
    split
    · simp
    · exact h
  | setDims d =>
    show (st.set_dimensions d).original_image ≠ none
    by_cases hc : d = st.image.get_size
    · rw [set_dimensions_of_eq st d hc]
      exact h
    · rw [set_dimensions_original_of_ne st d hc]
      simp

theorem applyOps_original_ne_none (st : UIImage) (ops : List Op)
    (h : st.original_image ≠ none) : (applyOps st ops).original_image ≠ none := by
  induction ops generalizing st with
  | nil => exact h
  | cons op rest ih => exact ih (applyOp st op) (applyOp_original_ne_none st op h)

/-! ## Concrete sample data for witnesses -/

/-- A valid 2×1 bitmap that is not premultiplied. -/
def bmpA : Bitmap := ⟨2, 1, [[⟨255, 100, 0, 100⟩, ⟨30, 40, 50, 60⟩]]⟩

/-- A valid 1×1 bitmap that is already premultiplied. -/
def bmpPre : Bitmap := ⟨1, 1, [[⟨5, 6, 7, 200⟩]]⟩

/-- A 100×100 bitmap used as a sample original. -/
def bmp100 : Bitmap := ⟨100, 100, []⟩

/-- A sample 4×4 widget rectangle. -/
def rectA : Rect := ⟨0, 0, 4, 4⟩

/-- A sample state with a 4×4 rectangle, a 1×1 displayed bitmap, and no
captured original. -/
def stA : UIImage := ⟨rectA, .ofBitmap bmpPre, none, none⟩

/-- A sample state whose 100×100 original has already been captured and
whose displayed bitmap is its 50×50 downscale. -/
def stB : UIImage :=
  ⟨⟨0, 0, 50, 50⟩, smoothscale (.ofBitmap bmp100) (50, 50), some (.ofBitmap bmp100), none⟩

/-- A sample state with a 1×1 rectangle and an already-captured original. -/
def stC : UIImage := ⟨⟨0, 0, 1, 1⟩, .ofBitmap bmpPre, some (.ofBitmap bmp100), none⟩

/-! ## Claims -/

/-- Claim C1: for every sequence of `set_image` / `set_dimensions` calls
(whose supplied bitmaps are valid and whose premultiplication flags are
truthful), after each mutator returns the displayed surface's size equals
the widget rectangle's size and the displayed surface is premultiplied;
in particular, after `set_image(B)` followed by `set_dimensions(S)` with
`S` positive, the displayed surface's size is `S`. -/
theorem claim_C1 (r : Rect) (b0 : Bitmap) (f0 : Bool) (ops : List Op)
    (h0 : Op.honest (.setImage b0 f0)) (hops : ∀ op ∈ ops, op.honest) :
    ((applyOps (UIImage.init r b0 f0) ops).image.get_size
        = (applyOps (UIImage.init r b0 f0) ops).rect.size)
    ∧ (applyOps (UIImage.init r b0 f0) ops).image.premultiplied
    ∧ ∀ (B : Bitmap) (fB : Bool) (S : Nat × Nat), 0 < S.1 → 0 < S.2 →
        (((applyOps (UIImage.init r b0 f0) ops).setImageCore B fB).set_dimensions S).image.get_size
          = S := by
  refine ⟨applyOps_size _ ops (init_size r b0 f0),
    (applyOps_premulInv _ ops hops (init_premulInv r b0 f0 h0)).1,
    fun B fB S _ _ => ?_⟩
  rw [set_dimensions_size _ S, set_dimensions_rect_size _ S]

/-- Witness for C1 at a concrete construction, call sequence and final
`set_image`/`set_dimensions` pair. -/
theorem claim_C1_witness :
    ((applyOps (UIImage.init rectA bmpA false) [Op.setDims (3, 3), Op.setImage bmpPre true]).image.get_size
        = (applyOps (UIImage.init rectA bmpA false) [Op.setDims (3, 3), Op.setImage bmpPre true]).rect.size)
    ∧ (applyOps (UIImage.init rectA bmpA false) [Op.setDims (3, 3), Op.setImage bmpPre true]).image.premultiplied
    ∧ (((applyOps (UIImage.init rectA bmpA false) [Op.setDims (3, 3), Op.setImage bmpPre true]).setImageCore bmpA false).set_dimensions (7, 5)).image.get_size
        = (7, 5) := by
  have h := claim_C1 rectA bmpA false [Op.setDims (3, 3), Op.setImage bmpPre true]
    (by decide) (by decide)
  exact ⟨h.1, h.2.1, h.2.2 bmpA false (7, 5) (by decide) (by decide)⟩

/-- Claim C2: in `set_image` on a non-null bitmap, if the converted
bitmap's width or height differs from the rectangle, the converted bitmap
is stored as the new original and the displayed surface becomes its
smoothscale to the rectangle's exact size; if the dimensions match, the
converted bitmap becomes the displayed surface directly. -/
theorem claim_C2 (st : UIImage) (b : Bitmap) (f : Bool) :
    ((UIImage.convertedImage b f).w ≠ st.rect.width
        ∨ (UIImage.convertedImage b f).h ≠ st.rect.height →
      (st.setImageCore b f).original_image
          = some (Surface.ofBitmap (UIImage.convertedImage b f))
        ∧ (st.setImageCore b f).image
          = smoothscale (Surface.ofBitmap (UIImage.convertedImage b f)) st.rect.size)
    ∧ ((UIImage.convertedImage b f).w = st.rect.width
        ∧ (UIImage.convertedImage b f).h = st.rect.height →
      (st.setImageCore b f).image = Surface.ofBitmap (UIImage.convertedImage b f)) := by
  constructor
  · intro hne
    unfold UIImage.setImageCore
    dsimp only
    rw [if_pos hne]
    exact ⟨rfl, rfl⟩
  · intro hEq
    unfold UIImage.setImageCore
    dsimp only
    rw [if_neg (by push_neg; exact hEq)]

/-- Witness for C2's mismatch branch at a concrete state and bitmap. -/
theorem claim_C2_witness :
    (stA.setImageCore bmpA false).original_image
        = some (Surface.ofBitmap (UIImage.convertedImage bmpA false))
    ∧ (stA.setImageCore bmpA false).image
        = smoothscale (Surface.ofBitmap (UIImage.convertedImage bmpA false)) stA.rect.size :=
  (claim_C2 stA bmpA false).1 (by decide)

/-- Claim C3: a `set_dimensions` call whose new size differs from the
displayed surface while no original has been captured yet captures the
original now — preferring the base widget's pre-clip slot when recorded,
else the displayed surface — and the new displayed surface is the
smoothscale of that original to the new size. -/
theorem claim_C3 (st : UIImage) (d : Nat × Nat)
    (h0 : st.original_image = none) (hne : d ≠ st.image.get_size) :
    (st.set_dimensions d).original_image = some (st.pre_clipped_image.getD st.image)
    ∧ (st.set_dimensions d).image
        = smoothscale (st.pre_clipped_image.getD st.image) d := by
  rw [set_dimensions_original_of_ne st d hne, set_dimensions_image_of_ne st d hne, h0]
  exact ⟨rfl, rfl⟩

/-- Witness for C3 at a concrete state with no pre-clip slot. -/
theorem claim_C3_witness :
    (stA.set_dimensions (2, 3)).original_image
        = some (stA.pre_clipped_image.getD stA.image)
    ∧ (stA.set_dimensions (2, 3)).image
        = smoothscale (stA.pre_clipped_image.getD stA.image) (2, 3) :=
  claim_C3 stA (2, 3) (by decide) (by decide)

/-- Claim C4: once the original is captured, every rescale resamples the
stored original, never the previously scaled displayed surface; resizing
to `S1` and then to a different `S2` yields exactly the smoothscale of
the original at `S2`, with no intermediate scaling layer. -/
theorem claim_C4 (st : UIImage) (o : Surface) (ho : st.original_image = some o) :
    (∀ S, S ≠ st.image.get_size → (st.set_dimensions S).image = smoothscale o S)
    ∧ ∀ S1 S2, S2 ≠ S1 →
        ((st.set_dimensions S1).set_dimensions S2).image = smoothscale o S2 := by
  constructor
  · intro S hS
    rw [set_dimensions_image_of_ne st S hS, ho]
    rfl
  · intro S1 S2 h2
    have hsz : (st.set_dimensions S1).image.get_size = S1 :=
      (set_dimensions_size st S1).trans (set_dimensions_rect_size st S1)
    have h2s : S2 ≠ (st.set_dimensions S1).image.get_size := by
      rw [hsz]; exact h2
    rw [set_dimensions_image_of_ne _ S2 h2s,
      set_dimensions_original_some st o S1 ho]
    rfl

/-- Witness for C4: the 50×50 → 200×200 scenario over a 100×100 original
produces a single scaling layer over the original. -/
theorem claim_C4_witness :
    (stB.set_dimensions (200, 200)).image
        = smoothscale (Surface.ofBitmap bmp100) (200, 200)
    ∧ ((stB.set_dimensions (50, 50)).set_dimensions (200, 200)).image
        = smoothscale (Surface.ofBitmap bmp100) (200, 200) := by
  have h := claim_C4 stB (Surface.ofBitmap bmp100) (by decide)
  exact ⟨h.1 (200, 200) (by decide), h.2 (50, 50) (200, 200) (by decide)⟩

/-- Claim C5: the conversion step of `set_image` with
`image_is_alpha_premultiplied = false` maps every source pixel
`(R,G,B,A)` to `(R·A/255, G·A/255, B·A/255, A)` (integer division), and
with the flag true the premultiplication transform is not applied. -/
theorem claim_C5 (w h : Nat) (data : List (List Pixel)) :
    UIImage.convertedImage ⟨w, h, data⟩ false
        = ⟨w, h, data.map (fun row => row.map
            (fun p => ⟨p.r * p.a / 255, p.g * p.a / 255, p.b * p.a / 255, p.a⟩))⟩
    ∧ UIImage.convertedImage ⟨w, h, data⟩ true = ⟨w, h, data⟩ :=
  ⟨rfl, rfl⟩

/-- Counterexample to C6 as stated: constructing with a 100×100 bitmap
and a 50×50 rectangle captures an original already during construction
(via the mismatch branch of `set_image`), so it is not unset for every
source bitmap and target rectangle. -/
theorem claim_C6_counterexample :
    (UIImage.init ⟨0, 0, 50, 50⟩ ⟨100, 100, []⟩ false).original_image ≠ none := by
  decide

/-- Claim C6 (amended): after construction the original is unset exactly
when the source bitmap's (conversion-preserved) dimensions equal the
target rectangle's size; when they differ, construction itself already
captures the converted bitmap as the original via the image-replacement
step, rather than waiting for a later resize. -/
theorem claim_C6_amended (r : Rect) (b : Bitmap) (f : Bool) :
    (UIImage.init r b f).original_image
      = if b.w = r.width ∧ b.h = r.height then none
        else some (Surface.ofBitmap (UIImage.convertedImage b f)) := by
  have hw := convertedImage_w b f
  have hh := convertedImage_h b f
  unfold UIImage.init UIImage.setImageCore
  dsimp only
  split
  · next hc =>
    rw [if_neg]
    rcases hc with hc | hc
    · rw [hw] at hc
      tauto
    · rw [hh] at hc
      tauto
  · next hc =>
    push_neg at hc
    rw [if_pos ⟨by rw [← hw]; exact hc.1, by rw [← hh]; exact hc.2⟩]

/-- Claim C7: a `set_dimensions` call whose size equals the displayed
surface's current size performs no rescale (displayed surface and
original unchanged), and a second `set_dimensions` with the same size is
always a no-op on the displayed surface. -/
theorem claim_C7 (st : UIImage) (S : Nat × Nat) :
    (S = st.image.get_size →
      (st.set_dimensions S).image = st.image
        ∧ (st.set_dimensions S).original_image = st.original_image)
    ∧ ((st.set_dimensions S).set_dimensions S).image = (st.set_dimensions S).image := by
  constructor
  · intro h
    rw [set_dimensions_of_eq st S h]
    exact ⟨rfl, rfl⟩
  · have hsz : (st.set_dimensions S).image.get_size = S :=
      (set_dimensions_size st S).trans (set_dimensions_rect_size st S)
    rw [set_dimensions_of_eq _ S hsz.symm]
    rfl

/-- Witness for C7 at a concrete state whose displayed size is 1×1. -/
theorem claim_C7_witness :
    ((stA.set_dimensions (1, 1)).image = stA.image
      ∧ (stA.set_dimensions (1, 1)).original_image = stA.original_image)
    ∧ ((stA.set_dimensions (1, 1)).set_dimensions (1, 1)).image
        = (stA.set_dimensions (1, 1)).image := by
  have h := claim_C7 stA (1, 1)
  exact ⟨h.1 (by decide), h.2⟩

/-- Claim C8: when the converted bitmap's dimensions equal the
rectangle's size, `set_image` leaves the stored original unchanged (a
stale earlier-captured original remains). -/
theorem claim_C8 (st : UIImage) (b : Bitmap) (f : Bool)
    (hw : (UIImage.convertedImage b f).w = st.rect.width)
    (hh : (UIImage.convertedImage b f).h = st.rect.height) :
    (st.setImageCore b f).original_image = st.original_image := by
  unfold UIImage.setImageCore
  dsimp only
  rw [if_neg (by push_neg; exact ⟨hw, hh⟩)]

/-- Witness for C8: a same-size replacement keeps the stale 100×100
original. -/
theorem claim_C8_witness :
    (stC.setImageCore bmpPre false).original_image = stC.original_image :=
  claim_C8 stC bmpPre false (by decide) (by decide)

/-- Claim C9: `set_image` with a null (`None`) bitmap raises from the
initial format-conversion call before any state mutation, so the caller's
state, including the displayed surface and the stored original, is
exactly as before. -/
theorem claim_C9 (st : UIImage) (f : Bool) :
    st.set_image none f = Except.error UIImage.PyError.attributeError
    ∧ st.set_image_run none f = st :=
  ⟨rfl, rfl⟩

/-- Claim C10: once the original is non-null it never returns to the
unset state: `set_dimensions` never clears or replaces an existing
original, and every sequence of mutators preserves its non-nullness. -/
theorem claim_C10 (st : UIImage) (o : Surface) (ops : List Op)
    (ho : st.original_image = some o) :
    (∀ d, (st.set_dimensions d).original_image = some o)
    ∧ (applyOps st ops).original_image ≠ none :=
  ⟨fun d => set_dimensions_original_some st o d ho,
    applyOps_original_ne_none st ops (by rw [ho]; simp)⟩

/-- Witness for C10 at a concrete state and mutator sequence. -/
theorem claim_C10_witness :
    (stC.set_dimensions (9, 9)).original_image = some (Surface.ofBitmap bmp100)
    ∧ (applyOps stC [Op.setDims (3, 4), Op.setImage bmpA false]).original_image ≠ none := by
  have h := claim_C10 stC (Surface.ofBitmap bmp100)
    [Op.setDims (3, 4), Op.setImage bmpA false] (by decide)
  exact ⟨h.1 (9, 9), h.2⟩
